import Mathlib

/-!
OTLP → FinancialTxn bridge (`src/bridge/main.go`)

A shallow embedding of the ingestion/transform path of the bridge:
`hexID`, `attr`, `spanToTxn` and the fan-out loop of `ingestHandler`,
together with theorems about the derived transaction records.

Conventions of the embedding

* Go `string` values are Lean `String`s; the parsers work on the list of
  characters of the string.  Every character the parsers give a meaning to
  is ASCII, so reading characters instead of bytes changes nothing.
* `[]byte` is `List UInt8`, `uint64` is `UInt64`; `int64` values are `Int`s
  and every conversion or subtraction that could wrap is passed through
  `wrapInt64` explicitly.
* `float64` is the IEEE 754 binary64 bit pattern (`Float64.bits`).
* Effects of the handler (log lines, `saveTxn` calls) are returned as data.
-/

namespace Bridge

/-! ## OTLP data model (the fields of the protobuf messages the bridge reads) -/

/-- Go's `float64`: an IEEE 754 binary64 value, held as its bit pattern
(`math.Float64bits`). -/
structure Float64 where
  bits : Nat
deriving DecidableEq, Repr

/-- Modelled from the spec: OTLP protobuf declaration, not under src/.
The oneof `value` of `common.v1.AnyValue`; `unset` is a message whose
oneof carries nothing. -/
inductive AnyValue where
  | stringValue (s : String)
  | boolValue (b : Bool)
  | intValue (i : Int)
  | doubleValue (d : Float64)
  | arrayValue (vs : List AnyValue)
  | kvlistValue (kvs : List (String × AnyValue))
  | bytesValue (b : List UInt8)
  | unset

/-- Modelled from the spec: OTLP protobuf declaration, not under src/.
Message `common.v1.KeyValue`; `Value` is a pointer and may be nil. -/
structure KeyValue where
  Key : String
  Value : Option AnyValue

/-- Modelled from the spec: OTLP protobuf declaration, not under src/.
Message `trace.v1.Status`; `Code` is an open protobuf enum (int32). -/
structure Status where
  Message : String
  Code : Int

/-- Modelled from the spec: OTLP protobuf declaration, not under src/.
Enum value `Status_STATUS_CODE_UNSET`. -/
def Status_STATUS_CODE_UNSET : Int := 0
/-- Modelled from the spec: OTLP protobuf declaration, not under src/.
Enum value `Status_STATUS_CODE_OK`. -/
def Status_STATUS_CODE_OK : Int := 1
/-- Modelled from the spec: OTLP protobuf declaration, not under src/.
Enum value `Status_STATUS_CODE_ERROR`. -/
def Status_STATUS_CODE_ERROR : Int := 2

/-- Modelled from the spec: OTLP protobuf declaration, not under src/.
Message `trace.v1.Span`, restricted to the fields `spanToTxn` reads. -/
structure Span where
  TraceId : List UInt8
  SpanId : List UInt8
  Name : String
  StartTimeUnixNano : UInt64
  EndTimeUnixNano : UInt64
  Attributes : List KeyValue
  Status : Option Status

/-- Modelled from the spec: OTLP protobuf declaration, not under src/.
Message `trace.v1.ScopeSpans`. -/
structure ScopeSpans where
  Spans : List Span

/-- Modelled from the spec: OTLP protobuf declaration, not under src/.
Message `resource.v1.Resource`. -/
structure Resource where
  Attributes : List KeyValue

/-- Modelled from the spec: OTLP protobuf declaration, not under src/.
Message `trace.v1.ResourceSpans`; `Resource` is a pointer and may be nil. -/
structure ResourceSpans where
  Resource : Option Resource
  ScopeSpans : List ScopeSpans

/-- Modelled from the spec: OTLP protobuf declaration, not under src/.
Message `collector.trace.v1.ExportTraceServiceRequest`. -/
structure ExportTraceServiceRequest where
  ResourceSpans : List ResourceSpans

/-- Modelled from the spec: OTLP protobuf declaration, not under src/.
Generated getter `(*AnyValue).GetStringValue`: the string when the oneof
holds a string, the empty string otherwise (also on a nil receiver). -/
def GetStringValue : Option AnyValue → String
  | some (AnyValue.stringValue s) => s
  | _ => ""

/-! ## `hexID` -/

/-- Modelled from the spec: Go library `encoding/hex`, not under src/.
The digit table of `encoding/hex`. -/
def hextable : List Char := "0123456789abcdef".toList

/-- Modelled from the spec: Go library `encoding/hex`, not under src/.
The loop of `hex.Encode`: two table characters per input byte. -/
def hexEncode : List UInt8 → List Char
  | [] => []
  | v :: rest =>
    hextable.getD (v.toNat >>> 4) '0' :: hextable.getD (v.toNat &&& 0x0f) '0' :: hexEncode rest

/-- Source function `hexID`: `hex.EncodeToString(b)`. -/
def hexID (b : List UInt8) : String := String.mk (hexEncode b)

/-! ## `attr` -/

/-- The loop of `attr` over `sp.Attributes`: return at the first key match. -/
def attrLoop (key : String) : List KeyValue → String
  | [] => ""
  | a :: rest => if a.Key = key then GetStringValue a.Value else attrLoop key rest

/-- Source function `attr`. -/
def attr (sp : Span) (key : String) : String := attrLoop key sp.Attributes

/-! ## `strconv.ParseFloat`

`spanToTxn` calls `strconv.ParseFloat(amountStr, 64)` of the Go standard
library, the "standard floating-point parsing" of the specification.  The
library is not part of the repository; the definitions below follow its
`strconv/atof.go`: `special`, `readFloat`, `underscoreOK`, `atofHex` and
`ParseFloat` step by step, and the decimal conversion by its documented
contract (nearest binary64, ties to even, `±Inf` with `ErrRange` when the
number is too large). -/

/-- Modelled from the spec: Go library `strconv`, not under src/.
The two causes a `*strconv.NumError` of `ParseFloat` can carry. -/
inductive NumError where
  | ErrSyntax
  | ErrRange
deriving DecidableEq, Repr

/-- The literal `0` (positive zero). -/
def Float64.zero : Float64 := ⟨0⟩

/-- Modelled from the spec: Go library `strconv`, not under src/.
Result of `math.Inf(sign)`: `+Inf` when `sign >= 0`, `-Inf` otherwise. -/
def Float64.inf (sign : Int) : Float64 :=
  if sign ≥ 0 then ⟨0x7FF0000000000000⟩ else ⟨0xFFF0000000000000⟩

/-- Modelled from the spec: Go library `strconv`, not under src/.
Result of `math.NaN()`. -/
def Float64.nan : Float64 := ⟨0x7FF8000000000001⟩

/-- Modelled from the spec: Go library `strconv`, not under src/.
Helper `lower` of strconv: `c | ('x' - 'X')`, on the character code. -/
def lower (c : Char) : Nat := c.toNat ||| 0x20

/-- Modelled from the spec: Go library `strconv`, not under src/.
Whether `c` is one of `'0'..'9'`. -/
def isDigit (c : Char) : Bool := decide ('0' ≤ c ∧ c ≤ '9')

/-- Modelled from the spec: Go library `strconv`, not under src/.
Whether `lower(c)` is one of `'a'..'f'`. -/
def isHexLetter (c : Char) : Bool := decide (97 ≤ lower c ∧ lower c ≤ 102)

/-- Modelled from the spec: Go library `strconv`, not under src/.
Helper `commonPrefixLenIgnoreCase(s, prefix)`; only `'A'..'Z'` of `s`
are folded to lower case. -/
def commonPrefixLenIgnoreCase : List Char → List Char → Nat
  | c :: s, p :: pre =>
    let c1 := if 'A' ≤ c ∧ c ≤ 'Z' then c.toNat + 32 else c.toNat
    if c1 ≠ p.toNat then 0 else commonPrefixLenIgnoreCase s pre + 1
  | _, _ => 0

/-- Modelled from the spec: Go library `strconv`, not under src/.
The `case 'i', 'I'` body of `special`, also reached by fallthrough after a
sign: `inf` or `infinity`, with the number of characters it takes. -/
def specialInf (sign : Int) (nsign : Nat) (s : List Char) : Option (Float64 × Nat) :=
  let n := commonPrefixLenIgnoreCase s "infinity".toList
  let n := if 3 < n ∧ n < 8 then 3 else n
  if n = 3 ∨ n = 8 then some (Float64.inf sign, nsign + n) else none

/-- Modelled from the spec: Go library `strconv`, not under src/.
Function `special` of strconv: `none` stands for `ok == false`. -/
def special : List Char → Option (Float64 × Nat)
  | [] => none
  | c :: rest =>
    if c = '+' then specialInf 1 1 rest
    else if c = '-' then specialInf (-1) 1 rest
    else if c = 'i' ∨ c = 'I' then specialInf 1 0 (c :: rest)
    else if c = 'n' ∨ c = 'N' then
      if commonPrefixLenIgnoreCase (c :: rest) "nan".toList = 3 then some (Float64.nan, 3) else none
    else none

/-- Modelled from the spec: Go library `strconv`, not under src/.
The variables of the mantissa loop of `readFloat`. -/
structure Scan where
  mantissa : Nat
  nd : Nat
  ndMant : Nat
  dp : Int
  sawdot : Bool
  sawdigits : Bool
  trunc : Bool
  underscores : Bool
  i : Nat
deriving Repr

/-- Modelled from the spec: Go library `strconv`, not under src/.
The loop `loop:` of `readFloat`; returns the variables and the unread
rest of the input. -/
def scanMantissa (base maxMantDigits : Nat) : List Char → Scan → Scan × List Char
  | [], st => (st, [])
  | c :: cs, st =>
    if c = '_' then
      scanMantissa base maxMantDigits cs { st with underscores := true, i := st.i + 1 }
    else if c = '.' then
      if st.sawdot then (st, c :: cs)
      else scanMantissa base maxMantDigits cs { st with sawdot := true, dp := st.nd, i := st.i + 1 }
    else if isDigit c then
      if c = '0' ∧ st.nd = 0 then
        scanMantissa base maxMantDigits cs
          { st with sawdigits := true, dp := st.dp - 1, i := st.i + 1 }
      else if st.ndMant < maxMantDigits then
        scanMantissa base maxMantDigits cs
          { st with sawdigits := true, nd := st.nd + 1,
                    mantissa := st.mantissa * base + (c.toNat - 48),
                    ndMant := st.ndMant + 1, i := st.i + 1 }
      else if c ≠ '0' then
        scanMantissa base maxMantDigits cs
          { st with sawdigits := true, nd := st.nd + 1, trunc := true, i := st.i + 1 }
      else
        scanMantissa base maxMantDigits cs
          { st with sawdigits := true, nd := st.nd + 1, i := st.i + 1 }
    else if base = 16 ∧ isHexLetter c then
      if st.ndMant < maxMantDigits then
        scanMantissa base maxMantDigits cs
          { st with sawdigits := true, nd := st.nd + 1,
                    mantissa := st.mantissa * 16 + (lower c - 97 + 10),
                    ndMant := st.ndMant + 1, i := st.i + 1 }
      else
        scanMantissa base maxMantDigits cs
          { st with sawdigits := true, nd := st.nd + 1, trunc := true, i := st.i + 1 }
    else (st, c :: cs)

/-- Modelled from the spec: Go library `strconv`, not under src/.
The exponent-digit loop shared by `readFloat` and `decimal.set`: digits
and underscores; the value stops growing once it has reached 10000.
Returns `(e, sawUnderscore, consumed, rest)`. -/
def scanExp : List Char → Nat → Bool → Nat → Nat × Bool × Nat × List Char
  | [], e, us, n => (e, us, n, [])
  | c :: cs, e, us, n =>
    if c = '_' then scanExp cs e true (n + 1)
    else if isDigit c then scanExp cs (if e < 10000 then e * 10 + (c.toNat - 48) else e) us (n + 1)
    else (e, us, n, c :: cs)

/-- Modelled from the spec: Go library `strconv`, not under src/.
The loop of `underscoreOK`; `saw` is the last class of character seen. -/
def underscoreLoop (hex : Bool) : List Char → Char → Bool
  | [], saw => saw ≠ '_'
  | c :: cs, saw =>
    if isDigit c ∨ (hex ∧ isHexLetter c) then underscoreLoop hex cs '0'
    else if c = '_' then
      if saw ≠ '0' then false else underscoreLoop hex cs '_'
    else if saw = '_' then false
    else underscoreLoop hex cs '!'

/-- Modelled from the spec: Go library `strconv`, not under src/.
The base-prefix step and the loop of `underscoreOK`, after the sign. -/
def underscoreBody : List Char → Bool
  | c0 :: c1 :: cs =>
    if c0 = '0' ∧ (lower c1 = 98 ∨ lower c1 = 111 ∨ lower c1 = 120) then
      underscoreLoop (lower c1 = 120) cs '0'
    else underscoreLoop false (c0 :: c1 :: cs) '^'
  | s => underscoreLoop false s '^'

/-- Modelled from the spec: Go library `strconv`, not under src/.
Function `underscoreOK` of strconv. -/
def underscoreOK : List Char → Bool
  | c :: cs => if c = '-' ∨ c = '+' then underscoreBody cs else underscoreBody (c :: cs)
  | [] => underscoreBody []

/-- Modelled from the spec: Go library `strconv`, not under src/.
The results of `readFloat`; `i` is the number of characters read. -/
structure ReadFloat where
  mantissa : Nat
  exp : Int
  neg : Bool
  trunc : Bool
  hex : Bool
  i : Nat
  ok : Bool
deriving Repr

/-- Modelled from the spec: Go library `strconv`, not under src/.
The part of `readFloat` after the mantissa loop: exponent, `exp`, and the
underscore check on the text read. -/
def readFloatTail (s : List Char) (neg hex : Bool) (st : Scan) (rest : List Char) : ReadFloat :=
  let fail (i : Nat) : ReadFloat := ⟨st.mantissa, 0, neg, st.trunc, hex, i, false⟩
  if ¬ st.sawdigits then fail st.i
  else
    let dp : Int := if ¬ st.sawdot then st.nd else st.dp
    let dp : Int := if hex then dp * 4 else dp
    let ndMant : Nat := if hex then st.ndMant * 4 else st.ndMant
    let expChar : Nat := if hex then 112 else 101
    let finish (dp : Int) (underscores : Bool) (i : Nat) : ReadFloat :=
      let exp : Int := if st.mantissa ≠ 0 then dp - ndMant else 0
      if underscores ∧ ¬ underscoreOK (s.take i) then ⟨st.mantissa, exp, neg, st.trunc, hex, i, false⟩
      else ⟨st.mantissa, exp, neg, st.trunc, hex, i, true⟩
    match rest with
    | c :: cs =>
      if lower c = expChar then
        match cs with
        | [] => fail (st.i + 1)
        | d :: ds =>
          let esign : Int := if d = '-' then -1 else 1
          let signed : Bool := d = '+' ∨ d = '-'
          let body := if signed then ds else d :: ds
          let i := if signed then st.i + 2 else st.i + 1
          match body with
          | [] => fail i
          | b :: _ =>
            if ¬ isDigit b then fail i
            else
              let r := scanExp body 0 st.underscores i
              finish (dp + (r.1 : Int) * esign) r.2.1 r.2.2.1
      else if hex then fail st.i
      else finish dp st.underscores st.i
    | [] => if hex then fail st.i else finish dp st.underscores st.i

/-- Modelled from the spec: Go library `strconv`, not under src/.
The part of `readFloat` after the optional sign: base prefix and
mantissa loop. `i` counts the sign already read. -/
def readFloatBody (s : List Char) (neg : Bool) (i : Nat) (t : List Char) : ReadFloat :=
  match t with
  | c0 :: c1 :: c2 :: cs =>
    if c0 = '0' ∧ lower c1 = 120 then
      let r := scanMantissa 16 16 (c2 :: cs) ⟨0, 0, 0, 0, false, false, false, false, i + 2⟩
      readFloatTail s neg true r.1 r.2
    else
      let r := scanMantissa 10 19 t ⟨0, 0, 0, 0, false, false, false, false, i⟩
      readFloatTail s neg false r.1 r.2
  | _ =>
    let r := scanMantissa 10 19 t ⟨0, 0, 0, 0, false, false, false, false, i⟩
    readFloatTail s neg false r.1 r.2

/-- Modelled from the spec: Go library `strconv`, not under src/.
Function `readFloat` of strconv. -/
def readFloat (s : List Char) : ReadFloat :=
  match s with
  | [] => ⟨0, 0, false, false, false, 0, false⟩
  | c :: cs =>
    if c = '+' then readFloatBody s false 1 cs
    else if c = '-' then readFloatBody s true 1 cs
    else readFloatBody s false 0 s

/-- Modelled from the spec: Go library `strconv`, not under src/.
First loop of `atofHex`: shift the mantissa left until bit 54 is set.
The mantissa is below `2^64`, so 64 rounds always reach the exit test. -/
def hexShiftUp : Nat → Nat → Int → Nat × Int
  | 0, m, e => (m, e)
  | fuel + 1, m, e =>
    if m ≠ 0 ∧ m >>> 54 = 0 then hexShiftUp fuel (m <<< 1) (e - 1) else (m, e)

/-- Modelled from the spec: Go library `strconv`, not under src/.
Second loop of `atofHex`: shift right, keeping a sticky low bit, until
the mantissa fits in 55 bits. -/
def hexShiftDown : Nat → Nat → Int → Nat × Int
  | 0, m, e => (m, e)
  | fuel + 1, m, e =>
    if m >>> 55 ≠ 0 then hexShiftDown fuel (m >>> 1 ||| m &&& 1) (e + 1) else (m, e)

/-- Modelled from the spec: Go library `strconv`, not under src/.
Third loop of `atofHex`: denormalise while the exponent is too small. -/
def hexDenorm : Nat → Nat → Int → Nat × Int
  | 0, m, e => (m, e)
  | fuel + 1, m, e =>
    if m > 1 ∧ e < -1022 - 2 then hexDenorm fuel (m >>> 1 ||| m &&& 1) (e + 1) else (m, e)

/-- Modelled from the spec: Go library `strconv`, not under src/.
The last lines of `atofHex` and of `decimal.floatBits`: put mantissa,
exponent (`bias = -1023`) and sign together. -/
def assembleBits (mantissa : Nat) (exp : Int) (neg : Bool) : Nat :=
  let bits := mantissa &&& (1 <<< 52 - 1)
  let bits := bits ||| (((exp - (-1023)) % 2048).toNat <<< 52)
  if neg then bits ||| (1 <<< 52 <<< 11) else bits

/-- Modelled from the spec: Go library `strconv`, not under src/.
Function `atofHex` of strconv for `float64info`
(`mantbits = 52`, `expbits = 11`, `bias = -1023`). -/
def atofHex (mantissa : Nat) (exp : Int) (neg trunc : Bool) : Float64 × Option NumError :=
  let maxExp : Int := 1023
  let exp := exp + 52
  let a := hexShiftUp 64 mantissa exp
  let m1 := if trunc then a.1 ||| 1 else a.1
  let b := hexShiftDown 64 m1 a.2
  let c := hexDenorm 64 b.1 b.2
  let round := (c.1 &&& 3) ||| ((c.1 >>> 2) &&& 1)
  let m2 := c.1 >>> 2
  let e2 := c.2 + 2
  let m3 := if round = 3 then (if m2 + 1 = 1 <<< 53 then (m2 + 1) >>> 1 else m2 + 1) else m2
  let e3 := if round = 3 ∧ m2 + 1 = 1 <<< 53 then e2 + 1 else e2
  let e4 := if m3 >>> 52 = 0 then -1023 else e3
  if e4 > maxExp then (⟨assembleBits (1 <<< 52) (maxExp + 1) neg⟩, some NumError.ErrRange)
  else (⟨assembleBits m3 e4 neg⟩, none)

/-- Modelled from the spec: Go library `strconv`, not under src/.
The fields of strconv's `decimal` that `set` fills in. `d` is the value
of the digit string `d[:nd]`, kept in full (Go keeps 800 digits and a
`trunc` flag, which decide the rounding the same way). -/
structure Decimal where
  d : Nat
  nd : Nat
  dp : Int
  neg : Bool
deriving Repr

/-- Modelled from the spec: Go library `strconv`, not under src/.
The variables of the digit loop of `decimal.set`. -/
structure DecScan where
  d : Nat
  nd : Nat
  dp : Int
  sawdot : Bool
  sawdigits : Bool

/-- Modelled from the spec: Go library `strconv`, not under src/.
The digit loop of `decimal.set`; `none` is the `return` on a second dot. -/
def decimalDigits : List Char → DecScan → Option (DecScan × List Char)
  | [], st => some (st, [])
  | c :: cs, st =>
    if c = '_' then decimalDigits cs st
    else if c = '.' then
      if st.sawdot then none else decimalDigits cs { st with sawdot := true, dp := st.nd }
    else if isDigit c then
      if c = '0' ∧ st.nd = 0 then decimalDigits cs { st with sawdigits := true, dp := st.dp - 1 }
      else decimalDigits cs { st with sawdigits := true, d := st.d * 10 + (c.toNat - 48), nd := st.nd + 1 }
    else some (st, c :: cs)

/-- Modelled from the spec: Go library `strconv`, not under src/.
The exponent part of `decimal.set`: an `e`, an optional sign and at least
one digit; the result is the shifted `dp` and the unread rest. -/
def decimalExp (dp : Int) : List Char → Option (Int × List Char)
  | c :: cs =>
    if lower c = 101 then
      match cs with
      | [] => none
      | d :: ds =>
        let esign : Int := if d = '-' then -1 else 1
        let body := if d = '+' ∨ d = '-' then ds else d :: ds
        match body with
        | [] => none
        | b :: _ =>
          if ¬ isDigit b then none
          else
            let r := scanExp body 0 false 0
            some (dp + (r.1 : Int) * esign, r.2.2.2)
    else some (dp, c :: cs)
  | [] => some (dp, [])

/-- Modelled from the spec: Go library `strconv`, not under src/.
The part of `decimal.set` after the optional sign. -/
def decimalSetBody (neg : Bool) (t : List Char) : Option Decimal :=
  match decimalDigits t ⟨0, 0, 0, false, false⟩ with
  | none => none
  | some (st, rest) =>
    if ¬ st.sawdigits then none
    else
      let dp : Int := if ¬ st.sawdot then st.nd else st.dp
      match decimalExp dp rest with
      | some (dp, []) => some ⟨st.d, st.nd, dp, neg⟩
      | _ => none

/-- Modelled from the spec: Go library `strconv`, not under src/.
Method `(*decimal).set` of strconv; `none` stands for `ok == false`. -/
def decimalSet : List Char → Option Decimal
  | [] => none
  | c :: cs =>
    if c = '+' then decimalSetBody false cs
    else if c = '-' then decimalSetBody true cs
    else decimalSetBody false (c :: cs)

/-- The number of binary digits of `n` (`0` for `0`); the first argument
bounds the number of halvings and is taken as `n` itself. -/
def bitLen : Nat → Nat → Nat
  | 0, _ => 0
  | fuel + 1, n => if n = 0 then 0 else bitLen fuel (n / 2) + 1

/-- Modelled from the spec: Go library `strconv`, not under src/.
Nearest binary64 to the positive rational `num / den`, ties to even:
the result `(m, q)` stands for `m * 2^q` with `m < 2^53`, and `m < 2^52`
only at the smallest exponent `q = -1074` (denormal). -/
def roundNearestEven (num den : Nat) : Nat × Int :=
  let e0 : Int := (bitLen num num : Int) - (bitLen den den : Int)
  let ge : Bool := if e0 ≥ 0 then den * 2 ^ e0.toNat ≤ num else den ≤ num * 2 ^ (-e0).toNat
  let e : Int := if ge then e0 else e0 - 1
  let q : Int := max (e - 52) (-1074)
  let n := num * 2 ^ (-q).toNat
  let dd := den * 2 ^ q.toNat
  let m := n / dd
  let r := n % dd
  let m := if 2 * r > dd ∨ (2 * r = dd ∧ m % 2 = 1) then m + 1 else m
  if m = 2 ^ 53 then (2 ^ 52, q + 1) else (m, q)

/-- Modelled from the spec: Go library `strconv`, not under src/.
Method `(*decimal).floatBits` of strconv for `float64info`: the bits of
the nearest binary64 and the overflow flag.  The zero, `dp > 310` and
`dp < -330` shortcuts are those of the Go code; in between the value
`d * 10^(dp - nd)` is rounded to nearest, ties to even. -/
def floatBits (d : Decimal) : Nat × Bool :=
  if d.nd = 0 then (assembleBits 0 (-1023) d.neg, false)
  else if d.dp > 310 then (assembleBits 0 (1 <<< 11 - 1 + -1023) d.neg, true)
  else if d.dp < -330 then (assembleBits 0 (-1023) d.neg, false)
  else
    let k : Int := d.dp - d.nd
    let r := roundNearestEven (d.d * 10 ^ k.toNat) (10 ^ (-k).toNat)
    if r.2 + 52 > 1023 then (assembleBits 0 (1 <<< 11 - 1 + -1023) d.neg, true)
    else if r.1 < 1 <<< 52 then (assembleBits r.1 (-1023) d.neg, false)
    else (assembleBits r.1 (r.2 + 52) d.neg, false)

/-- Modelled from the spec: Go library `strconv`, not under src/.
Function `atof64` of strconv: value, characters read, error. -/
def atof64 (s : List Char) : Float64 × Nat × Option NumError :=
  match special s with
  | some (val, n) => (val, n, none)
  | none =>
    let r := readFloat s
    if ¬ r.ok then (Float64.zero, r.i, some NumError.ErrSyntax)
    else if r.hex then
      let h := atofHex r.mantissa r.exp r.neg r.trunc
      (h.1, r.i, h.2)
    else
      match decimalSet (s.take r.i) with
      | none => (Float64.zero, r.i, some NumError.ErrSyntax)
      | some d =>
        let b := floatBits d
        (⟨b.1⟩, r.i, if b.2 then some NumError.ErrRange else none)

/-- Modelled from the spec: Go library `strconv`, not under src/.
Function `strconv.ParseFloat(s, 64)`: the value and the error cause
(`none` for a nil error). -/
def ParseFloat (s : String) : Float64 × Option NumError :=
  let r := atof64 s.toList
  if r.2.1 ≠ s.length ∧ (r.2.2 = none ∨ r.2.2 ≠ some NumError.ErrSyntax) then
    (Float64.zero, some NumError.ErrSyntax)
  else (r.1, r.2.2)

/-! ## `spanToTxn` -/

/-- Two's-complement reading of an integer as an `int64`: what a Go
conversion to `int64` or an `int64` subtraction keeps of the exact value. -/
def wrapInt64 (x : Int) : Int := (x + 2 ^ 63) % 2 ^ 64 - 2 ^ 63

/-- Constant `className`. -/
def className : String := "FinancialTxn"

/-- The inner map `"properties"` built by `spanToTxn`, one field per key. -/
structure Properties where
  service : String
  txn_name : String
  start_time : Int
  end_time : Int
  latency_ms : Int
  status : String
  trace_id : String
  span_id : String
  amount : Float64
  currency : String
  error : Bool

/-- The map returned by `spanToTxn`: keys `"class"` and `"properties"`. -/
structure Txn where
  class_ : String
  properties : Properties

/-- Source function `spanToTxn`. -/
def spanToTxn (sp : Span) (service : String) : Txn :=
  let start := wrapInt64 (sp.StartTimeUnixNano.toNat / 1000000)
  let end_ := wrapInt64 (sp.EndTimeUnixNano.toNat / 1000000)
  let latency := wrapInt64 (end_ - start)
  let status :=
    match sp.Status with
    | some st => if st.Code = Status_STATUS_CODE_ERROR then "ERROR" else "OK"
    | none => "OK"
  let amountStr := attr sp "txn.amount"
  let amount := (ParseFloat amountStr).1
  let currency := attr sp "txn.currency"
  let currency := if currency = "" then "NA" else currency
  { class_ := className,
    properties :=
      { service := service,
        txn_name := sp.Name,
        start_time := start,
        end_time := end_,
        latency_ms := latency,
        status := status,
        trace_id := hexID sp.TraceId,
        span_id := hexID sp.SpanId,
        amount := amount,
        currency := currency,
        error := decide (status = "ERROR") } }

/-! ## `ingestHandler` -/

/-- The loop over `rs.Resource.Attributes` in `ingestHandler`: every
attribute with key `service.name` assigns `service`; the loop runs to the end
of the list. -/
def serviceLoop : List KeyValue → String → String
  | [], service => service
  | a :: rest, service =>
    serviceLoop rest (if a.Key = "service.name" then GetStringValue a.Value else service)

/-- The `// extract service.name` block of `ingestHandler`. -/
def resolveService (rs : ResourceSpans) : String :=
  match rs.Resource with
  | some r => serviceLoop r.Attributes "unknown"
  | none => "unknown"

/-- What the fan-out loops of `ingestHandler` have done so far: the
arguments of the `saveTxn` calls, in call order, and the variable `count`. -/
structure Sink where
  saved : List Txn
  count : Nat

/-- The loop `for _, sp := range ss.Spans`. -/
def spanLoop (service : String) : List Span → Sink → Sink
  | [], k => k
  | sp :: rest, k =>
    spanLoop service rest ⟨k.saved ++ [spanToTxn sp service], k.count + 1⟩

/-- The loop `for _, ss := range rs.ScopeSpans`. -/
def scopeLoop (service : String) : List ScopeSpans → Sink → Sink
  | [], k => k
  | ss :: rest, k => scopeLoop service rest (spanLoop service ss.Spans k)

/-- The loop `for _, rs := range req.ResourceSpans`. -/
def resourceLoop : List ResourceSpans → Sink → Sink
  | [], k => k
  | rs :: rest, k => resourceLoop rest (scopeLoop (resolveService rs) rs.ScopeSpans k)

/-- A line written with `log.Println` / `log.Printf` by `ingestHandler`. -/
inductive LogLine where
  | gzip (err : String)
  | readBody (err : String)
  | invalidProtobuf (err : String)
  | financialTxns (count : Nat)
deriving DecidableEq, Repr

/-- The request as `ingestHandler` reads it: the `Content-Encoding` header
value and the body. -/
structure Request (β : Type) where
  contentEncoding : String
  body : β

/-- The library calls of `ingestHandler`, over a body type `β` and a reader
type `ρ`: `gzip.NewReader`, the body used as a reader directly,
`io.ReadAll` and `proto.Unmarshal`. -/
structure Decoders (β ρ : Type) where
  gzipNewReader : β → Except String ρ
  bodyReader : β → ρ
  readAll : ρ → Except String (List UInt8)
  unmarshal : List UInt8 → Except String ExportTraceServiceRequest

/-- What one run of `ingestHandler` did: its log lines and its `saveTxn`
calls, both in order. -/
structure Outcome where
  log : List LogLine
  saved : List Txn

/-- The part of `ingestHandler` from `io.ReadAll` on. -/
def ingestFrom {β ρ : Type} (dec : Decoders β ρ) (reader : ρ) : Outcome :=
  match dec.readAll reader with
  | Except.error err => ⟨[LogLine.readBody err], []⟩
  | Except.ok raw =>
    match dec.unmarshal raw with
    | Except.error err => ⟨[LogLine.invalidProtobuf err], []⟩
    | Except.ok req =>
      let k := resourceLoop req.ResourceSpans ⟨[], 0⟩
      ⟨[LogLine.financialTxns k.count], k.saved⟩

/-- Source function `ingestHandler`. -/
def ingestHandler {β ρ : Type} (dec : Decoders β ρ) (r : Request β) : Outcome :=
  if r.contentEncoding = "gzip" then
    match dec.gzipNewReader r.body with
    | Except.error err => ⟨[LogLine.gzip err], []⟩
    | Except.ok gz => ingestFrom dec gz
  else ingestFrom dec (dec.bodyReader r.body)

/-! ## Reference definitions used in the statements -/

/-- The lowercase hexadecimal digit of a nibble `n < 16`: `'0'..'9'` for
`0..9`, `'a'..'f'` for `10..15`. -/
def lowerHexDigit (n : Nat) : Char := Char.ofNat (if n < 10 then 48 + n else 87 + n)

/-- The number of spans of a request, over all resources and scopes. -/
def totalSpans (req : ExportTraceServiceRequest) : Nat :=
  (req.ResourceSpans.map (fun rs => (rs.ScopeSpans.map (fun ss => ss.Spans.length)).sum)).sum

/-- The records of a request in document order (resource, scope, span), each
span transformed with the service name resolved for its resource group. -/
def recordsInOrder (req : ExportTraceServiceRequest) : List Txn :=
  req.ResourceSpans.flatMap (fun rs =>
    rs.ScopeSpans.flatMap (fun ss =>
      ss.Spans.map (fun sp => spanToTxn sp (resolveService rs))))

/-- A span with `txn.amount = "9.99"` and `txn.currency = "EUR"`, used in the
concrete evaluations below. -/
def chargeSpan : Span :=
  ⟨[0x0a, 0xff], [0x01], "charge", 1000000000, 1200000000,
   [⟨"txn.amount", some (AnyValue.stringValue "9.99")⟩,
    ⟨"txn.currency", some (AnyValue.stringValue "EUR")⟩], none⟩

/-- A resource group whose resource carries `service.name` twice, with the
values `"first"` and `"second"` in this order, and one span. -/
def dupServiceGroup : ResourceSpans :=
  ⟨some ⟨[⟨"service.name", some (AnyValue.stringValue "first")⟩,
          ⟨"service.name", some (AnyValue.stringValue "second")⟩]⟩,
   [⟨[chargeSpan]⟩]⟩

/-- A resource group without resource, with two scopes of one span each. -/
def bareGroup : ResourceSpans := ⟨none, [⟨[chargeSpan]⟩, ⟨[chargeSpan]⟩]⟩

/-- Decoders over byte lists that accept every body and decode it to the
given request; used to run `ingestHandler` on a concrete request. -/
def fixedDecoders (req : ExportTraceServiceRequest) : Decoders (List UInt8) (List UInt8) :=
  ⟨fun b => Except.ok b, fun b => b, fun rd => Except.ok rd, fun _ => Except.ok req⟩

/-- Decoders over byte lists whose `proto.Unmarshal` rejects every input. -/
def rejectingDecoders : Decoders (List UInt8) (List UInt8) :=
  ⟨fun b => Except.ok b, fun b => b, fun rd => Except.ok rd,
   fun _ => Except.error "proto: cannot parse invalid wire-format data"⟩

/-- A span whose `txn.amount` is the well-formed number `1e400`, which is
larger than every finite binary64. -/
def hugeAmountSpan : Span :=
  ⟨[0x0a, 0xff], [0x01], "charge", 1000000000, 1200000000,
   [⟨"txn.amount", some (AnyValue.stringValue "1e400")⟩], none⟩

/-! ## Lemmas -/

theorem hextable_getD (n : Nat) (h : n < 16) : hextable.getD n '0' = lowerHexDigit n := by
  unfold lowerHexDigit
  interval_cases n <;> rfl

theorem hextable_getD_mem (n : Nat) (h : n < 16) : hextable.getD n '0' ∈ hextable := by
  interval_cases n <;> decide

theorem byte_hi (v : UInt8) : v.toNat >>> 4 = v.toNat / 16 := by
  rw [Nat.shiftRight_eq_div_pow]

theorem byte_lo (v : UInt8) : v.toNat &&& 0x0f = v.toNat % 16 :=
  Nat.and_pow_two_sub_one_eq_mod v.toNat 4

theorem byte_hi_lt (v : UInt8) : v.toNat / 16 < 16 := by
  have := UInt8.toNat_lt v
  omega

theorem hexEncode_length (b : List UInt8) : (hexEncode b).length = 2 * b.length := by
  induction b with
  | nil => rfl
  | cons v rest ih => simp [hexEncode, ih]; omega

theorem hexEncode_mem (b : List UInt8) : ∀ c ∈ hexEncode b, c ∈ hextable := by
  induction b with
  | nil => intro c hc; simp [hexEncode] at hc
  | cons v rest ih =>
    intro c hc
    simp only [hexEncode, List.mem_cons] at hc
    rcases hc with h | h | h
    · rw [h, byte_hi]; exact hextable_getD_mem _ (byte_hi_lt v)
    · rw [h, byte_lo]; exact hextable_getD_mem _ (Nat.mod_lt _ (by decide))
    · exact ih c h

theorem hexEncode_even (b : List UInt8) (i : Nat) :
    (hexEncode b)[2 * i]? = b[i]?.map (fun v => lowerHexDigit (v.toNat / 16)) := by
  induction b generalizing i with
  | nil => simp [hexEncode]
  | cons v rest ih =>
    cases i with
    | zero =>
      have h := hextable_getD _ (byte_hi_lt v)
      simp only [hexEncode, byte_hi, Nat.mul_zero, List.getElem?_cons_zero, List.getElem?_cons_zero,
        Option.map_some', h]
    | succ j =>
      have h : 2 * (j + 1) = 2 * j + 1 + 1 := by ring
      rw [h]
      simp only [hexEncode, List.getElem?_cons_succ]
      exact ih j

theorem hexEncode_odd (b : List UInt8) (i : Nat) :
    (hexEncode b)[2 * i + 1]? = b[i]?.map (fun v => lowerHexDigit (v.toNat % 16)) := by
  induction b generalizing i with
  | nil => simp [hexEncode]
  | cons v rest ih =>
    cases i with
    | zero =>
      have h := hextable_getD _ (Nat.mod_lt v.toNat (by decide : 0 < 16))
      simp only [hexEncode, byte_lo, Nat.mul_zero, Nat.zero_add, List.getElem?_cons_succ,
        List.getElem?_cons_zero, Option.map_some', h]
    | succ j =>
      have h : 2 * (j + 1) + 1 = 2 * j + 1 + 1 + 1 := by ring
      rw [h]
      simp only [hexEncode, List.getElem?_cons_succ]
      exact ih j

theorem wrapInt64_of_range (x : Int) (h1 : -(2 ^ 63) ≤ x) (h2 : x < 2 ^ 63) : wrapInt64 x = x := by
  unfold wrapInt64
  norm_num at h1 h2 ⊢
  omega

theorem millis_range (t : UInt64) :
    (0 : Int) ≤ ((t.toNat / 1000000 : Nat) : Int) ∧ ((t.toNat / 1000000 : Nat) : Int) < 2 ^ 45 := by
  have h := UInt64.toNat_lt_size t
  have h' : t.toNat < 18446744073709551616 := h
  constructor
  · exact Int.ofNat_nonneg _
  · norm_num
    omega

theorem attrLoop_find (key : String) (l : List KeyValue) :
    attrLoop key l =
      match l.find? (fun a => decide (a.Key = key)) with
      | some a => GetStringValue a.Value
      | none => "" := by
  induction l with
  | nil => rfl
  | cons a rest ih =>
    by_cases h : a.Key = key
    · simp [attrLoop, List.find?, h]
    · simp [attrLoop, List.find?, h, ih]

theorem attrLoop_absent (key : String) (l : List KeyValue) (h : ∀ a ∈ l, a.Key ≠ key) :
    attrLoop key l = "" := by
  rw [attrLoop_find]
  have : l.find? (fun a => decide (a.Key = key)) = none := by
    rw [List.find?_eq_none]
    intro a ha
    simpa using h a ha
  rw [this]

theorem attrLoop_first (key : String) (l : List KeyValue) (a : KeyValue)
    (h : l.find? (fun a => decide (a.Key = key)) = some a) :
    attrLoop key l = GetStringValue a.Value := by
  rw [attrLoop_find, h]

theorem GetStringValue_nonString (v : Option AnyValue)
    (h : ∀ s, v ≠ some (AnyValue.stringValue s)) : GetStringValue v = "" := by
  unfold GetStringValue
  split
  · rename_i s; exact absurd rfl (h s)
  · rfl

theorem ParseFloat_empty : ParseFloat "" = (Float64.zero, some NumError.ErrSyntax) := by
  decide

theorem amount_of_attr (sp : Span) (service : String) :
    (spanToTxn sp service).properties.amount = (ParseFloat (attr sp "txn.amount")).1 := rfl

theorem currency_of_attr (sp : Span) (service : String) :
    (spanToTxn sp service).properties.currency =
      if attr sp "txn.currency" = "" then "NA" else attr sp "txn.currency" := rfl

theorem serviceLoop_last (l : List KeyValue) (init : String) :
    serviceLoop l init =
      match (l.filter (fun a => decide (a.Key = "service.name"))).getLast? with
      | some a => GetStringValue a.Value
      | none => init := by
  induction l generalizing init with
  | nil => rfl
  | cons a rest ih =>
    by_cases h : a.Key = "service.name"
    · simp only [serviceLoop, h, if_true, decide_True, List.filter_cons_of_pos]
      rw [ih, List.getLast?_cons]
      cases (rest.filter (fun a => decide (a.Key = "service.name"))).getLast? <;> rfl
    · have hd : decide (a.Key = "service.name") = false := by simpa using h
      simp only [serviceLoop, h, if_false]
      rw [ih, List.filter_cons_of_neg (by simp [hd])]

theorem serviceLoop_absent (l : List KeyValue) (init : String)
    (h : ∀ a ∈ l, a.Key ≠ "service.name") : serviceLoop l init = init := by
  rw [serviceLoop_last]
  have : l.filter (fun a => decide (a.Key = "service.name")) = [] := by
    rw [List.filter_eq_nil_iff]
    intro a ha
    simpa using h a ha
  rw [this]
  rfl

theorem spanLoop_eq (service : String) (spans : List Span) (k : Sink) :
    spanLoop service spans k =
      ⟨k.saved ++ spans.map (fun sp => spanToTxn sp service), k.count + spans.length⟩ := by
  induction spans generalizing k with
  | nil => simp [spanLoop]
  | cons sp rest ih =>
    simp only [spanLoop, ih, List.map_cons, List.length_cons, List.append_assoc,
      List.singleton_append, Sink.mk.injEq, true_and]
    omega

theorem scopeLoop_eq (service : String) (scopes : List ScopeSpans) (k : Sink) :
    scopeLoop service scopes k =
      ⟨k.saved ++ scopes.flatMap (fun ss => ss.Spans.map (fun sp => spanToTxn sp service)),
       k.count + (scopes.map (fun ss => ss.Spans.length)).sum⟩ := by
  induction scopes generalizing k with
  | nil => simp [scopeLoop]
  | cons ss rest ih =>
    simp only [scopeLoop, ih, spanLoop_eq, List.flatMap_cons, List.map_cons, List.sum_cons,
      List.append_assoc, Sink.mk.injEq, true_and]
    omega

theorem resourceLoop_eq (rss : List ResourceSpans) (k : Sink) :
    resourceLoop rss k =
      ⟨k.saved ++ recordsInOrder ⟨rss⟩, k.count + totalSpans ⟨rss⟩⟩ := by
  induction rss generalizing k with
  | nil => simp [resourceLoop, recordsInOrder, totalSpans]
  | cons rs rest ih =>
    simp only [resourceLoop, ih, scopeLoop_eq, recordsInOrder, totalSpans, List.flatMap_cons,
      List.map_cons, List.sum_cons, List.append_assoc, Sink.mk.injEq, true_and]
    omega

theorem recordsInOrder_length (req : ExportTraceServiceRequest) :
    (recordsInOrder req).length = totalSpans req := by
  simp [recordsInOrder, totalSpans, List.length_flatMap, Function.comp_def]

theorem sum_const_of_forall (l : List Nat) (c : Nat) (h : ∀ x ∈ l, x = c) :
    l.sum = l.length * c := by
  induction l with
  | nil => simp
  | cons x rest ih =>
    have hx : x = c := h x (List.mem_cons_self _ _)
    have hr : ∀ y ∈ rest, y = c := fun y hy => h y (List.mem_cons_of_mem _ hy)
    rw [List.sum_cons, ih hr, hx, List.length_cons]
    ring

theorem totalSpans_uniform (req : ExportTraceServiceRequest) (R S N : Nat)
    (hR : req.ResourceSpans.length = R)
    (hS : ∀ rs ∈ req.ResourceSpans, rs.ScopeSpans.length = S ∧
      ∀ ss ∈ rs.ScopeSpans, ss.Spans.length = N) :
    totalSpans req = R * S * N := by
  unfold totalSpans
  rw [sum_const_of_forall _ (S * N), List.length_map, hR, Nat.mul_assoc]
  intro x hx
  rw [List.mem_map] at hx
  obtain ⟨rs, hrs, rfl⟩ := hx
  obtain ⟨h1, h2⟩ := hS rs hrs
  rw [sum_const_of_forall _ N, List.length_map, h1]
  intro y hy
  rw [List.mem_map] at hy
  obtain ⟨ss, hss, rfl⟩ := hy
  exact h2 ss hss

theorem ingestFrom_ok {β ρ : Type} (dec : Decoders β ρ) (reader : ρ) (raw : List UInt8)
    (req : ExportTraceServiceRequest)
    (h2 : dec.readAll reader = Except.ok raw) (h3 : dec.unmarshal raw = Except.ok req) :
    ingestFrom dec reader = ⟨[LogLine.financialTxns (totalSpans req)], recordsInOrder req⟩ := by
  simp [ingestFrom, h2, h3, resourceLoop_eq]

theorem ingestFrom_saved {β ρ : Type} (dec : Decoders β ρ) (reader : ρ)
    (h : (ingestFrom dec reader).saved ≠ []) :
    ∃ raw req, dec.readAll reader = Except.ok raw ∧ dec.unmarshal raw = Except.ok req := by
  unfold ingestFrom at h
  cases h2 : dec.readAll reader with
  | error e => simp [h2] at h
  | ok raw =>
    cases h3 : dec.unmarshal raw with
    | error e => simp [h2, h3] at h
    | ok req => exact ⟨raw, req, rfl, h3⟩

theorem assembleBits_overflow (neg : Bool) :
    (⟨assembleBits (1 <<< 52) (1023 + 1) neg⟩ : Float64) = Float64.inf (if neg then -1 else 1) ∧
    (⟨assembleBits 0 (1 <<< 11 - 1 + -1023) neg⟩ : Float64)
      = Float64.inf (if neg then -1 else 1) := by
  cases neg <;> decide

theorem inf_cases (neg : Bool) :
    Float64.inf (if neg then -1 else 1) = Float64.inf 1 ∨
    Float64.inf (if neg then -1 else 1) = Float64.inf (-1) := by
  cases neg
  · exact Or.inl rfl
  · exact Or.inr rfl

theorem atofHex_err (mantissa : Nat) (exp : Int) (neg trunc : Bool) :
    (atofHex mantissa exp neg trunc).2 ≠ some NumError.ErrSyntax ∧
    ((atofHex mantissa exp neg trunc).2 = some NumError.ErrRange →
      (atofHex mantissa exp neg trunc).1 = Float64.inf (if neg then -1 else 1)) := by
  have key : ∀ (m3 : Nat) (e4 : Int) (r : Float64 × Option NumError),
      r = (if e4 > 1023 then
            ((⟨assembleBits (1 <<< 52) (1023 + 1) neg⟩ : Float64), some NumError.ErrRange)
          else (⟨assembleBits m3 e4 neg⟩, none)) →
      r.2 ≠ some NumError.ErrSyntax ∧
      (r.2 = some NumError.ErrRange → r.1 = Float64.inf (if neg then -1 else 1)) := by
    intro m3 e4 r hr
    by_cases h : e4 > 1023
    · rw [if_pos h] at hr
      rw [hr]
      exact ⟨by simp, fun _ => (assembleBits_overflow neg).1⟩
    · rw [if_neg h] at hr
      rw [hr]
      exact ⟨by simp, fun h => by simp at h⟩
  exact key _ _ _ rfl

theorem floatBits_overflow (d : Decimal) (h : (floatBits d).2 = true) :
    (⟨(floatBits d).1⟩ : Float64) = Float64.inf (if d.neg then -1 else 1) := by
  unfold floatBits at h ⊢
  simp only at h ⊢
  split at h
  · simp at h
  · split at h
    · rename_i h1 h2
      rw [if_neg h1, if_pos h2]
      exact (assembleBits_overflow d.neg).2
    · split at h
      · simp at h
      · split at h
        · rename_i h1 h2 h3 h4
          rw [if_neg h1, if_neg h2, if_neg h3, if_pos h4]
          exact (assembleBits_overflow d.neg).2
        · split at h <;> simp at h

theorem atof64_err (s : List Char) :
    ((atof64 s).2.2 = some NumError.ErrSyntax → (atof64 s).1 = Float64.zero) ∧
    ((atof64 s).2.2 = some NumError.ErrRange →
      (atof64 s).1 = Float64.inf 1 ∨ (atof64 s).1 = Float64.inf (-1)) := by
  unfold atof64
  split
  · exact ⟨fun h => by simp at h, fun h => by simp at h⟩
  · simp only
    split
    · exact ⟨fun _ => rfl, fun h => by simp at h⟩
    · split
      · rename_i hok hhex
        have hx := atofHex_err (readFloat s).mantissa (readFloat s).exp (readFloat s).neg
          (readFloat s).trunc
        refine ⟨fun h => absurd h hx.1, fun h => ?_⟩
        have := hx.2 h
        simp only at this ⊢
        rw [this]
        exact inf_cases _
      · split
        · exact ⟨fun _ => rfl, fun h => by simp at h⟩
        · rename_i d hd
          by_cases hov : (floatBits d).2 = true
          · refine ⟨fun h => by simp [hov] at h, fun _ => ?_⟩
            simp only
            rw [floatBits_overflow d hov]
            exact inf_cases _
          · exact ⟨fun h => by simp [hov] at h, fun h => by simp [hov] at h⟩

theorem ParseFloat_err (s : String) :
    ((ParseFloat s).2 = some NumError.ErrSyntax → (ParseFloat s).1 = Float64.zero) ∧
    ((ParseFloat s).2 = some NumError.ErrRange →
      (ParseFloat s).1 = Float64.inf 1 ∨ (ParseFloat s).1 = Float64.inf (-1)) := by
  unfold ParseFloat
  simp only
  split
  · exact ⟨fun _ => rfl, fun h => by simp at h⟩
  · exact atof64_err s.toList

/-! ### The loops of `atofHex` reach their exit tests, and sample values -/

theorem hexShiftUp_exit (fuel m : Nat) (e : Int) (h0 : m ≠ 0) (h : 2 ^ 54 ≤ m * 2 ^ fuel) :
    (hexShiftUp fuel m e).1 >>> 54 ≠ 0 := by
  induction fuel generalizing m e with
  | zero =>
    simp only [hexShiftUp, Nat.shiftRight_eq_div_pow]
    have : 2 ^ 54 ≤ m := by simpa using h
    have := Nat.div_pos this (by norm_num : 0 < 2 ^ 54)
    omega
  | succ n ih =>
    unfold hexShiftUp
    by_cases hc : m ≠ 0 ∧ m >>> 54 = 0
    · rw [if_pos hc]
      apply ih
      · rw [Nat.shiftLeft_eq]; omega
      · rw [Nat.shiftLeft_eq]
        calc 2 ^ 54 ≤ m * 2 ^ (n + 1) := h
          _ = m * 2 ^ 1 * 2 ^ n := by ring
    · rw [if_neg hc]
      intro h2
      exact hc ⟨h0, h2⟩

theorem sticky_shift_lt (m k : Nat) (hk : 1 ≤ k) (h : m < 2 ^ (k + 1)) :
    (m >>> 1 ||| m &&& 1) < 2 ^ k := by
  apply Nat.or_lt_two_pow
  · rw [Nat.shiftRight_eq_div_pow]
    have : 2 ^ (k + 1) = 2 * 2 ^ k := by ring
    omega
  · exact Nat.and_lt_two_pow m (Nat.one_lt_two_pow (by omega))

theorem hexShiftDown_exit (fuel m : Nat) (e : Int) (h : m < 2 ^ (55 + fuel)) :
    (hexShiftDown fuel m e).1 >>> 55 = 0 := by
  induction fuel generalizing m e with
  | zero =>
    simp only [hexShiftDown, Nat.shiftRight_eq_div_pow]
    exact Nat.div_eq_of_lt (by simpa using h)
  | succ n ih =>
    unfold hexShiftDown
    by_cases hc : m >>> 55 ≠ 0
    · rw [if_pos hc]
      apply ih
      exact sticky_shift_lt m (55 + n) (by omega) (by simpa [Nat.add_assoc] using h)
    · rw [if_neg hc]
      simpa using hc

theorem hexDenorm_exit (fuel m : Nat) (e : Int) (h : m < 2 ^ fuel) :
    (hexDenorm fuel m e).1 ≤ 1 ∨ -1022 - 2 ≤ (hexDenorm fuel m e).2 := by
  induction fuel generalizing m e with
  | zero =>
    simp only [hexDenorm]
    left
    simp at h
    omega
  | succ n ih =>
    unfold hexDenorm
    by_cases hc : m > 1 ∧ e < -1022 - 2
    · rw [if_pos hc]
      apply ih
      cases n with
      | zero => simp at h; omega
      | succ k => exact sticky_shift_lt m (k + 1) (by omega) h
    · rw [if_neg hc]
      simp only [not_and_or, not_lt] at hc
      rcases hc with hc | hc
      · left; omega
      · right; exact hc

theorem lt_of_shiftRight_eq_zero (m k : Nat) (h : m >>> k = 0) : m < 2 ^ k := by
  rw [Nat.shiftRight_eq_div_pow] at h
  by_contra hge
  have := Nat.div_pos (Nat.le_of_not_lt hge) (Nat.two_pow_pos k)
  omega

theorem hexShiftUp_bound (fuel m : Nat) (e : Int) (h : m < 2 ^ 64) :
    (hexShiftUp fuel m e).1 < 2 ^ 64 := by
  induction fuel generalizing m e with
  | zero => exact h
  | succ n ih =>
    unfold hexShiftUp
    by_cases hc : m ≠ 0 ∧ m >>> 54 = 0
    · rw [if_pos hc]
      apply ih
      have hlt : m < 2 ^ 54 := lt_of_shiftRight_eq_zero m 54 hc.2
      rw [Nat.shiftLeft_eq]
      omega
    · rw [if_neg hc]
      exact h

theorem isDigit_value (c : Char) (h : isDigit c = true) : c.toNat - 48 ≤ 9 := by
  unfold isDigit at h
  obtain ⟨_, h2⟩ := of_decide_eq_true h
  have h2' : c.val.toNat ≤ ('9' : Char).val.toNat := h2
  have h9 : ('9' : Char).val.toNat = 57 := rfl
  show c.val.toNat - 48 ≤ 9
  omega

theorem isHexLetter_value (c : Char) (h : isHexLetter c = true) : lower c - 97 + 10 ≤ 15 := by
  unfold isHexLetter at h
  obtain ⟨_, h2⟩ := of_decide_eq_true h
  omega

theorem scanMantissa_bound (base maxMantDigits : Nat) (hb : base = 10 ∨ base = 16)
    (s : List Char) (st : Scan)
    (h1 : st.mantissa < base ^ st.ndMant) (h2 : st.ndMant ≤ maxMantDigits) :
    (scanMantissa base maxMantDigits s st).1.mantissa < base ^ maxMantDigits := by
  induction s generalizing st with
  | nil =>
    simp only [scanMantissa]
    exact lt_of_lt_of_le h1 (Nat.pow_le_pow_right (by rcases hb with h | h <;> omega) h2)
  | cons c cs ih =>
    have hfin : st.mantissa < base ^ maxMantDigits :=
      lt_of_lt_of_le h1 (Nat.pow_le_pow_right (by rcases hb with h | h <;> omega) h2)
    unfold scanMantissa
    split
    · exact ih _ h1 h2
    · split
      · split
        · exact hfin
        · exact ih _ h1 h2
      · split
        · rename_i hd
          split
          · exact ih _ h1 h2
          · split
            · rename_i hlt
              apply ih
              · show st.mantissa * base + (c.toNat - 48) < base ^ (st.ndMant + 1)
                have hv := isDigit_value c hd
                have : (st.mantissa + 1) * base ≤ base ^ st.ndMant * base :=
                  Nat.mul_le_mul_right _ h1
                rw [pow_succ]
                rcases hb with h | h <;> subst h <;> nlinarith
              · exact hlt
            · split
              · exact ih _ h1 h2
              · exact ih _ h1 h2
        · split
          · rename_i hx
            split
            · rename_i hlt
              apply ih
              · show st.mantissa * 16 + (lower c - 97 + 10) < base ^ (st.ndMant + 1)
                have hv := isHexLetter_value c (by simpa using hx.2)
                have hb16 : base = 16 := hx.1
                subst hb16
                have : (st.mantissa + 1) * 16 ≤ 16 ^ st.ndMant * 16 :=
                  Nat.mul_le_mul_right _ h1
                rw [pow_succ]
                omega
              · exact hlt
            · exact ih _ h1 h2
          · exact hfin

theorem atofHex_loops_exit (mantissa : Nat) (exp : Int) (trunc : Bool) (h : mantissa < 2 ^ 64) :
    (mantissa = 0 ∨ (hexShiftUp 64 mantissa (exp + 52)).1 >>> 54 ≠ 0) ∧
    (hexShiftDown 64
      (if trunc then (hexShiftUp 64 mantissa (exp + 52)).1 ||| 1
        else (hexShiftUp 64 mantissa (exp + 52)).1)
      (hexShiftUp 64 mantissa (exp + 52)).2).1 >>> 55 = 0 ∧
    ((hexDenorm 64
        (hexShiftDown 64
          (if trunc then (hexShiftUp 64 mantissa (exp + 52)).1 ||| 1
            else (hexShiftUp 64 mantissa (exp + 52)).1)
          (hexShiftUp 64 mantissa (exp + 52)).2).1
        (hexShiftDown 64
          (if trunc then (hexShiftUp 64 mantissa (exp + 52)).1 ||| 1
            else (hexShiftUp 64 mantissa (exp + 52)).1)
          (hexShiftUp 64 mantissa (exp + 52)).2).2).1 ≤ 1 ∨
     -1022 - 2 ≤ (hexDenorm 64
        (hexShiftDown 64
          (if trunc then (hexShiftUp 64 mantissa (exp + 52)).1 ||| 1
            else (hexShiftUp 64 mantissa (exp + 52)).1)
          (hexShiftUp 64 mantissa (exp + 52)).2).1
        (hexShiftDown 64
          (if trunc then (hexShiftUp 64 mantissa (exp + 52)).1 ||| 1
            else (hexShiftUp 64 mantissa (exp + 52)).1)
          (hexShiftUp 64 mantissa (exp + 52)).2).2).2) := by
  have hup := hexShiftUp_bound 64 mantissa (exp + 52) h
  have hm1 : (if trunc then (hexShiftUp 64 mantissa (exp + 52)).1 ||| 1
        else (hexShiftUp 64 mantissa (exp + 52)).1) < 2 ^ 64 := by
    split
    · exact Nat.or_lt_two_pow hup (by norm_num)
    · exact hup
  have hdown := hexShiftDown_exit 64 _ (hexShiftUp 64 mantissa (exp + 52)).2
    (lt_of_lt_of_le hm1 (Nat.pow_le_pow_right (by norm_num) (by norm_num : 64 ≤ 55 + 64)))
  refine ⟨?_, hdown, ?_⟩
  · by_cases h0 : mantissa = 0
    · exact Or.inl h0
    · right
      apply hexShiftUp_exit 64 mantissa _ h0
      have : 1 ≤ mantissa := Nat.pos_of_ne_zero h0
      calc 2 ^ 54 ≤ 1 * 2 ^ 64 := by norm_num
        _ ≤ mantissa * 2 ^ 64 := Nat.mul_le_mul_right _ this
  · apply hexDenorm_exit
    exact lt_of_lt_of_le (lt_of_shiftRight_eq_zero _ 55 hdown)
      (Nat.pow_le_pow_right (by norm_num) (by norm_num))

theorem readFloatTail_mantissa (s : List Char) (neg hex : Bool) (st : Scan) (rest : List Char) :
    (readFloatTail s neg hex st rest).mantissa = st.mantissa := by
  unfold readFloatTail
  simp only
  repeat' split
  all_goals rfl

theorem readFloatBody_mantissa_lt (s : List Char) (neg : Bool) (i : Nat) (t : List Char) :
    (readFloatBody s neg i t).mantissa < 2 ^ 64 := by
  have h16 : ∀ u st0, st0 = (⟨0, 0, 0, 0, false, false, false, false, u⟩ : Scan) →
      ∀ cs, (scanMantissa 16 16 cs st0).1.mantissa < 2 ^ 64 := by
    intro u st0 hst cs
    have := scanMantissa_bound 16 16 (Or.inr rfl) cs st0 (by rw [hst]; norm_num) (by rw [hst]; norm_num)
    exact lt_of_lt_of_le this (by norm_num)
  have h10 : ∀ u st0, st0 = (⟨0, 0, 0, 0, false, false, false, false, u⟩ : Scan) →
      ∀ cs, (scanMantissa 10 19 cs st0).1.mantissa < 2 ^ 64 := by
    intro u st0 hst cs
    have := scanMantissa_bound 10 19 (Or.inl rfl) cs st0 (by rw [hst]; norm_num) (by rw [hst]; norm_num)
    exact lt_of_lt_of_le this (by norm_num)
  unfold readFloatBody
  split
  · split
    · rw [readFloatTail_mantissa]; exact h16 _ _ rfl _
    · rw [readFloatTail_mantissa]; exact h10 _ _ rfl _
  · rw [readFloatTail_mantissa]; exact h10 _ _ rfl _

theorem readFloat_mantissa_lt (s : List Char) : (readFloat s).mantissa < 2 ^ 64 := by
  unfold readFloat
  split
  · norm_num
  · split
    · exact readFloatBody_mantissa_lt _ _ _ _
    · split
      · exact readFloatBody_mantissa_lt _ _ _ _
      · exact readFloatBody_mantissa_lt _ _ _ _

set_option maxRecDepth 100000 in
theorem ParseFloat_samples :
    ParseFloat "1" = (⟨0x3FF0000000000000⟩, none) ∧
    ParseFloat "42.50" = (⟨0x4045400000000000⟩, none) ∧
    ParseFloat "9.99" = (⟨0x4023FAE147AE147B⟩, none) ∧
    ParseFloat "-0" = (⟨0x8000000000000000⟩, none) ∧
    ParseFloat "0x1p-2" = (⟨0x3FD0000000000000⟩, none) ∧
    ParseFloat "1e5" = (⟨0x40F86A0000000000⟩, none) ∧
    ParseFloat "1e400" = (Float64.inf 1, some NumError.ErrRange) ∧
    ParseFloat "-1e400" = (Float64.inf (-1), some NumError.ErrRange) ∧
    ParseFloat "0x1p1024" = (Float64.inf 1, some NumError.ErrRange) ∧
    ParseFloat "Inf" = (Float64.inf 1, none) ∧
    ParseFloat "NaN" = (Float64.nan, none) ∧
    ParseFloat "1e400x" = (Float64.zero, some NumError.ErrSyntax) ∧
    ParseFloat "12,5" = (Float64.zero, some NumError.ErrSyntax) ∧
    ParseFloat " 1" = (Float64.zero, some NumError.ErrSyntax) := by
  decide

theorem spanToTxn_scenario :
    (spanToTxn chargeSpan "payments").class_ = "FinancialTxn" ∧
    (spanToTxn chargeSpan "payments").properties.service = "payments" ∧
    (spanToTxn chargeSpan "payments").properties.txn_name = "charge" ∧
    (spanToTxn chargeSpan "payments").properties.start_time = 1000 ∧
    (spanToTxn chargeSpan "payments").properties.end_time = 1200 ∧
    (spanToTxn chargeSpan "payments").properties.latency_ms = 200 ∧
    (spanToTxn chargeSpan "payments").properties.status = "OK" ∧
    (spanToTxn chargeSpan "payments").properties.trace_id = "0aff" ∧
    (spanToTxn chargeSpan "payments").properties.span_id = "01" ∧
    (spanToTxn chargeSpan "payments").properties.amount = ⟨0x4023FAE147AE147B⟩ ∧
    (spanToTxn chargeSpan "payments").properties.currency = "EUR" ∧
    (spanToTxn chargeSpan "payments").properties.error = false := by
  decide

theorem amount_by_error_cause (sp : Span) (service : String) :
    (spanToTxn sp service).properties.amount = (ParseFloat (attr sp "txn.amount")).1 ∧
    ((ParseFloat (attr sp "txn.amount")).2 = some NumError.ErrSyntax →
      (spanToTxn sp service).properties.amount = Float64.zero) ∧
    ((ParseFloat (attr sp "txn.amount")).2 = some NumError.ErrRange →
      (spanToTxn sp service).properties.amount = Float64.inf 1 ∨
      (spanToTxn sp service).properties.amount = Float64.inf (-1)) := by
  refine ⟨rfl, ?_, ?_⟩
  · rw [amount_of_attr]
    exact (ParseFloat_err (attr sp "txn.amount")).1
  · rw [amount_of_attr]
    exact (ParseFloat_err (attr sp "txn.amount")).2

/-! ## Theorems -/

/-- C9: `hexID b` has length `2 * len b`, consists of the characters
`0-9a-f` only, has at positions `2i` and `2i+1` the lowercase hex digits of
the high and low nibble of byte `i`, and the record's `trace_id` and
`span_id` are `hexID` of the span's `TraceId` and `SpanId`; being a function
of the byte list, equal bytes give equal strings. -/
theorem hexID_spec (b : List UInt8) (sp : Span) (service : String) :
    (hexID b).length = 2 * b.length ∧
    (∀ c ∈ (hexID b).toList, c ∈ "0123456789abcdef".toList) ∧
    (∀ i, (hexID b).toList[2 * i]? = b[i]?.map (fun v => lowerHexDigit (v.toNat / 16))) ∧
    (∀ i, (hexID b).toList[2 * i + 1]? = b[i]?.map (fun v => lowerHexDigit (v.toNat % 16))) ∧
    (∀ b2 : List UInt8, b2 = b → hexID b2 = hexID b) ∧
    (spanToTxn sp service).properties.trace_id = hexID sp.TraceId ∧
    (spanToTxn sp service).properties.span_id = hexID sp.SpanId := by
  refine ⟨?_, ?_, ?_, ?_, ?_, rfl, rfl⟩
  · show (hexEncode b).length = 2 * b.length
    exact hexEncode_length b
  · exact hexEncode_mem b
  · exact hexEncode_even b
  · exact hexEncode_odd b
  · intro b2 h; rw [h]

/-- Witness of C9 at the two bytes `0x0a 0xff`, which render as `0aff`. -/
theorem hexID_spec_witness :
    hexID [0x0a, 0xff] = "0aff" ∧ (hexID [0x0a, 0xff]).length = 2 * 2 ∧
    'f' ∈ "0123456789abcdef".toList ∧
    (spanToTxn chargeSpan "svc").properties.trace_id = hexID [0x0a, 0xff] :=
  ⟨by decide,
   (hexID_spec [0x0a, 0xff] chargeSpan "svc").1,
   (hexID_spec [0x0a, 0xff] chargeSpan "svc").2.1 'f' (by decide),
   (hexID_spec [0x0a, 0xff] chargeSpan "svc").2.2.2.2.2.1⟩

/-- C7: `start_time` and `end_time` are the floors of the nanosecond
timestamps divided by `10^6`, `latency_ms` is their exact integer difference
(no conversion or subtraction wraps), and `latency_ms` is negative exactly
when `end_time < start_time`. -/
theorem latency_exact (sp : Span) (service : String) :
    (spanToTxn sp service).properties.start_time = ((sp.StartTimeUnixNano.toNat / 10 ^ 6 : Nat) : Int) ∧
    (spanToTxn sp service).properties.end_time = ((sp.EndTimeUnixNano.toNat / 10 ^ 6 : Nat) : Int) ∧
    (spanToTxn sp service).properties.latency_ms =
      (spanToTxn sp service).properties.end_time - (spanToTxn sp service).properties.start_time ∧
    ((spanToTxn sp service).properties.latency_ms < 0 ↔
      (spanToTxn sp service).properties.end_time < (spanToTxn sp service).properties.start_time) := by
  have hs := millis_range sp.StartTimeUnixNano
  have he := millis_range sp.EndTimeUnixNano
  have e1 : wrapInt64 ((sp.StartTimeUnixNano.toNat / 1000000 : Nat) : Int)
      = ((sp.StartTimeUnixNano.toNat / 1000000 : Nat) : Int) :=
    wrapInt64_of_range _ (by norm_num at hs ⊢; omega) (by norm_num at hs ⊢; omega)
  have e2 : wrapInt64 ((sp.EndTimeUnixNano.toNat / 1000000 : Nat) : Int)
      = ((sp.EndTimeUnixNano.toNat / 1000000 : Nat) : Int) :=
    wrapInt64_of_range _ (by norm_num at he ⊢; omega) (by norm_num at he ⊢; omega)
  have e3 : wrapInt64 (((sp.EndTimeUnixNano.toNat / 1000000 : Nat) : Int)
      - ((sp.StartTimeUnixNano.toNat / 1000000 : Nat) : Int))
      = ((sp.EndTimeUnixNano.toNat / 1000000 : Nat) : Int)
        - ((sp.StartTimeUnixNano.toNat / 1000000 : Nat) : Int) :=
    wrapInt64_of_range _ (by norm_num at hs he ⊢; omega) (by norm_num at hs he ⊢; omega)
  have p : (10 : Nat) ^ 6 = 1000000 := by norm_num
  simp only [spanToTxn, p]
  push_cast at e1 e2 e3 ⊢
  rw [e1, e2, e3]
  refine ⟨rfl, rfl, rfl, ?_⟩
  omega

/-- C5: the record's `status` is `"ERROR"` exactly when the span has a status
whose code is `STATUS_CODE_ERROR`, and `"OK"` in every other case (no status,
or any other code); the `error` flag is true exactly when `status` is
`"ERROR"`. -/
theorem status_mapping (sp : Span) (service : String) :
    ((spanToTxn sp service).properties.status = "ERROR" ↔
      ∃ st, sp.Status = some st ∧ st.Code = Status_STATUS_CODE_ERROR) ∧
    ((spanToTxn sp service).properties.status = "OK" ↔
      ¬ ∃ st, sp.Status = some st ∧ st.Code = Status_STATUS_CODE_ERROR) ∧
    ((spanToTxn sp service).properties.error = true ↔
      (spanToTxn sp service).properties.status = "ERROR") := by
  have hne : ("OK" : String) ≠ "ERROR" := by decide
  refine ⟨?_, ?_, ?_⟩
  · simp only [spanToTxn]
    cases hst : sp.Status with
    | none => simp [hne]
    | some st =>
      by_cases hc : st.Code = Status_STATUS_CODE_ERROR
      · simp [hc]
      · simp [hc, hne]
  · simp only [spanToTxn]
    cases hst : sp.Status with
    | none => simp
    | some st =>
      by_cases hc : st.Code = Status_STATUS_CODE_ERROR
      · simp [hc, hne.symm]
      · simp [hc]
  · simp only [spanToTxn, decide_eq_true_eq]

/-- Witness of C5: a span with status code ERROR gives `status = "ERROR"` and
`error = true`; a span without status, and one with code OK, give `"OK"`. -/
theorem status_mapping_witness :
    (spanToTxn ⟨[], [], "charge", 0, 0, [], some ⟨"", Status_STATUS_CODE_ERROR⟩⟩
      "svc").properties.status = "ERROR" ∧
    (spanToTxn ⟨[], [], "charge", 0, 0, [], some ⟨"", Status_STATUS_CODE_ERROR⟩⟩
      "svc").properties.error = true ∧
    (spanToTxn ⟨[], [], "charge", 0, 0, [], none⟩ "svc").properties.status = "OK" ∧
    (spanToTxn ⟨[], [], "charge", 0, 0, [], some ⟨"", Status_STATUS_CODE_OK⟩⟩
      "svc").properties.status = "OK" :=
  ⟨(status_mapping ⟨[], [], "charge", 0, 0, [], some ⟨"", Status_STATUS_CODE_ERROR⟩⟩ "svc").1.2
     ⟨⟨"", Status_STATUS_CODE_ERROR⟩, rfl, rfl⟩,
   (status_mapping ⟨[], [], "charge", 0, 0, [], some ⟨"", Status_STATUS_CODE_ERROR⟩⟩ "svc").2.2.2
     ((status_mapping ⟨[], [], "charge", 0, 0, [], some ⟨"", Status_STATUS_CODE_ERROR⟩⟩
        "svc").1.2 ⟨⟨"", Status_STATUS_CODE_ERROR⟩, rfl, rfl⟩),
   (status_mapping ⟨[], [], "charge", 0, 0, [], none⟩ "svc").2.1.2 (by simp),
   (status_mapping ⟨[], [], "charge", 0, 0, [], some ⟨"", Status_STATUS_CODE_OK⟩⟩ "svc").2.1.2
     (by
       rintro ⟨st, h, hc⟩
       cases h
       exact absurd hc (by decide))⟩

/-- C6: a span without a `txn.currency` attribute, or whose (first)
`txn.currency` attribute holds the empty string, gets `currency = "NA"`; one
whose (first) `txn.currency` attribute holds a non-empty string gets that
string; a span without a `txn.amount` attribute gets `amount = 0`.
`spanToTxn` is a total function, so a record is produced in every case. -/
theorem defaulting (sp : Span) (service : String) :
    ((∀ a ∈ sp.Attributes, a.Key ≠ "txn.currency") →
      (spanToTxn sp service).properties.currency = "NA") ∧
    (∀ a, sp.Attributes.find? (fun a => decide (a.Key = "txn.currency")) = some a →
      a.Value = some (AnyValue.stringValue "") →
      (spanToTxn sp service).properties.currency = "NA") ∧
    (∀ a s, sp.Attributes.find? (fun a => decide (a.Key = "txn.currency")) = some a →
      a.Value = some (AnyValue.stringValue s) → s ≠ "" →
      (spanToTxn sp service).properties.currency = s) ∧
    ((∀ a ∈ sp.Attributes, a.Key ≠ "txn.amount") →
      (spanToTxn sp service).properties.amount = Float64.zero) := by
  refine ⟨?_, ?_, ?_, ?_⟩
  · intro h
    rw [currency_of_attr]
    have : attr sp "txn.currency" = "" := attrLoop_absent _ _ h
    simp [this]
  · intro a hf hv
    rw [currency_of_attr]
    have : attr sp "txn.currency" = "" := by
      unfold attr
      rw [attrLoop_first _ _ a hf, hv]
      rfl
    simp [this]
  · intro a s hf hv hs
    rw [currency_of_attr]
    have : attr sp "txn.currency" = s := by
      unfold attr
      rw [attrLoop_first _ _ a hf, hv]
      rfl
    simp [this, hs]
  · intro h
    rw [amount_of_attr]
    have : attr sp "txn.amount" = "" := attrLoop_absent _ _ h
    rw [this, ParseFloat_empty]

/-- Witness of C6: a span without attributes gets `currency = "NA"` and
`amount = 0`; a span with `txn.currency = "EUR"` gets `"EUR"`. -/
theorem defaulting_witness :
    (spanToTxn ⟨[], [], "charge", 0, 0, [], none⟩ "svc").properties.currency = "NA" ∧
    (spanToTxn ⟨[], [], "charge", 0, 0, [], none⟩ "svc").properties.amount = Float64.zero ∧
    (spanToTxn ⟨[], [], "charge", 0, 0,
      [⟨"txn.currency", some (AnyValue.stringValue "EUR")⟩], none⟩ "svc").properties.currency
      = "EUR" :=
  ⟨(defaulting ⟨[], [], "charge", 0, 0, [], none⟩ "svc").1 (by simp),
   (defaulting ⟨[], [], "charge", 0, 0, [], none⟩ "svc").2.2.2 (by simp),
   (defaulting ⟨[], [], "charge", 0, 0,
      [⟨"txn.currency", some (AnyValue.stringValue "EUR")⟩], none⟩ "svc").2.2.1
      ⟨"txn.currency", some (AnyValue.stringValue "EUR")⟩ "EUR" (by simp [List.find?]) rfl
      (by decide)⟩

/-- C10: `attr` is decided by the first attribute whose key matches and by
its string discriminant only: when the first attribute with the key carries a
non-string value (or none), `attr` returns the empty string, whatever later
attributes with the same key hold; hence a first `txn.amount` of that kind
gives `amount = 0` and a first `txn.currency` of that kind gives
`currency = "NA"`. -/
theorem attr_first_match (sp : Span) (service : String) :
    (∀ key a, sp.Attributes.find? (fun a => decide (a.Key = key)) = some a →
      attr sp key = GetStringValue a.Value) ∧
    (∀ key a, sp.Attributes.find? (fun a => decide (a.Key = key)) = some a →
      (∀ s, a.Value ≠ some (AnyValue.stringValue s)) → attr sp key = "") ∧
    (∀ a, sp.Attributes.find? (fun a => decide (a.Key = "txn.amount")) = some a →
      (∀ s, a.Value ≠ some (AnyValue.stringValue s)) →
      (spanToTxn sp service).properties.amount = Float64.zero) ∧
    (∀ a, sp.Attributes.find? (fun a => decide (a.Key = "txn.currency")) = some a →
      (∀ s, a.Value ≠ some (AnyValue.stringValue s)) →
      (spanToTxn sp service).properties.currency = "NA") := by
  have key_empty : ∀ key a, sp.Attributes.find? (fun a => decide (a.Key = key)) = some a →
      (∀ s, a.Value ≠ some (AnyValue.stringValue s)) → attr sp key = "" := by
    intro key a hf hv
    unfold attr
    rw [attrLoop_first _ _ a hf, GetStringValue_nonString _ hv]
  refine ⟨?_, key_empty, ?_, ?_⟩
  · intro key a hf
    exact attrLoop_first _ _ a hf
  · intro a hf hv
    rw [amount_of_attr, key_empty _ a hf hv, ParseFloat_empty]
  · intro a hf hv
    rw [currency_of_attr, key_empty _ a hf hv]
    simp

/-- Witness of C10: a span whose first `txn.amount` is the double `42.5`
and whose second is the string `"9.99"` gets `amount = 0`; likewise a first
boolean `txn.currency` followed by `"EUR"` gets `"NA"`. -/
theorem attr_first_match_witness :
    (spanToTxn ⟨[], [], "charge", 0, 0,
      [⟨"txn.amount", some (AnyValue.doubleValue ⟨0x4045400000000000⟩)⟩,
       ⟨"txn.amount", some (AnyValue.stringValue "9.99")⟩], none⟩ "svc").properties.amount
      = Float64.zero ∧
    (spanToTxn ⟨[], [], "charge", 0, 0,
      [⟨"txn.currency", some (AnyValue.boolValue true)⟩,
       ⟨"txn.currency", some (AnyValue.stringValue "EUR")⟩], none⟩ "svc").properties.currency
      = "NA" :=
  ⟨(attr_first_match ⟨[], [], "charge", 0, 0,
      [⟨"txn.amount", some (AnyValue.doubleValue ⟨0x4045400000000000⟩)⟩,
       ⟨"txn.amount", some (AnyValue.stringValue "9.99")⟩], none⟩ "svc").2.2.1
      ⟨"txn.amount", some (AnyValue.doubleValue ⟨0x4045400000000000⟩)⟩
      (by simp [List.find?]) (by intro s h; cases h),
   (attr_first_match ⟨[], [], "charge", 0, 0,
      [⟨"txn.currency", some (AnyValue.boolValue true)⟩,
       ⟨"txn.currency", some (AnyValue.stringValue "EUR")⟩], none⟩ "svc").2.2.2
      ⟨"txn.currency", some (AnyValue.boolValue true)⟩
      (by simp [List.find?]) (by intro s h; cases h)⟩

/-- C8: when the resource of a group is absent, or has no attribute with key
`service.name`, the resolved service name is `"unknown"`, and every record
the loops of `ingestHandler` add for that group (every span of every scope)
has `service = "unknown"`. -/
theorem service_fallback (rs : ResourceSpans)
    (h : rs.Resource = none ∨
      ∃ r, rs.Resource = some r ∧ ∀ a ∈ r.Attributes, a.Key ≠ "service.name") :
    resolveService rs = "unknown" ∧
    (∀ ss ∈ rs.ScopeSpans, ∀ sp ∈ ss.Spans,
      (spanToTxn sp (resolveService rs)).properties.service = "unknown") ∧
    (∀ k t, t ∈ (scopeLoop (resolveService rs) rs.ScopeSpans k).saved →
      t ∈ k.saved ∨ t.properties.service = "unknown") := by
  have hs : resolveService rs = "unknown" := by
    unfold resolveService
    rcases h with h | ⟨r, hr, ha⟩
    · rw [h]
    · rw [hr]
      exact serviceLoop_absent _ _ ha
  refine ⟨hs, ?_, ?_⟩
  · intro ss _ sp _
    rw [hs]
    rfl
  · intro k t ht
    rw [scopeLoop_eq, hs] at ht
    simp only [List.mem_append, List.mem_flatMap, List.mem_map] at ht
    rcases ht with ht | ⟨ss, _, sp, _, rfl⟩
    · exact Or.inl ht
    · exact Or.inr rfl

/-- Witness of C8: the group without resource resolves to `"unknown"`. -/
theorem service_fallback_witness :
    resolveService bareGroup = "unknown" ∧
    (spanToTxn chargeSpan (resolveService bareGroup)).properties.service = "unknown" :=
  ⟨(service_fallback bareGroup (Or.inl rfl)).1,
   (service_fallback bareGroup (Or.inl rfl)).2.1 ⟨[chargeSpan]⟩ (by simp [bareGroup])
     chargeSpan (by simp)⟩

/-- C1 (as stated, refuted): the resource of `dupServiceGroup` lists
`service.name` twice, the first with the string `"first"`, yet the record the
fan-out derives for its span carries the service name `"second"`. -/
theorem service_first_wins_counterexample :
    (dupServiceGroup.Resource.map (fun r =>
        (r.Attributes.filter (fun a => decide (a.Key = "service.name"))).map
          (fun a => GetStringValue a.Value))) = some ["first", "second"] ∧
    resolveService dupServiceGroup = "second" ∧
    ((resourceLoop [dupServiceGroup] ⟨[], 0⟩).saved.map (fun t => t.properties.service))
      = ["second"] ∧
    ¬ (∀ t ∈ (resourceLoop [dupServiceGroup] ⟨[], 0⟩).saved, t.properties.service = "first") := by
  decide

/-- C1 (amended): when the resource's attribute list contains attributes
with key `service.name` (two or more, or just one), the service name is the
string value of the LAST of them in list order, whatever the earlier ones
hold, and every record the loops of `ingestHandler` add for the group
carries it. -/
theorem service_last_wins (rs : ResourceSpans) (r : Resource) (a : KeyValue)
    (hr : rs.Resource = some r)
    (ha : (r.Attributes.filter (fun a => decide (a.Key = "service.name"))).getLast? = some a) :
    resolveService rs = GetStringValue a.Value ∧
    (∀ k t, t ∈ (scopeLoop (resolveService rs) rs.ScopeSpans k).saved →
      t ∈ k.saved ∨ t.properties.service = GetStringValue a.Value) := by
  have hs : resolveService rs = GetStringValue a.Value := by
    unfold resolveService
    rw [hr]
    show serviceLoop r.Attributes "unknown" = _
    rw [serviceLoop_last, ha]
  refine ⟨hs, ?_⟩
  intro k t ht
  rw [scopeLoop_eq, hs] at ht
  simp only [List.mem_append, List.mem_flatMap, List.mem_map] at ht
  rcases ht with ht | ⟨ss, _, sp, _, rfl⟩
  · exact Or.inl ht
  · exact Or.inr rfl

/-- Witness of C1 (amended): the group with `service.name` listed as
`"first"` then `"second"` resolves to `"second"`. -/
theorem service_last_wins_witness :
    resolveService dupServiceGroup = "second" :=
  (service_last_wins dupServiceGroup
    ⟨[⟨"service.name", some (AnyValue.stringValue "first")⟩,
      ⟨"service.name", some (AnyValue.stringValue "second")⟩]⟩
    ⟨"service.name", some (AnyValue.stringValue "second")⟩ rfl rfl).1

/-- C3: after a successful decode (reader obtained, body read, message
unmarshalled) the `saveTxn` calls of `ingestHandler` are exactly the records
of the request in document order, one per span, each built by `spanToTxn`
with the service name of the span's resource group; the logged count and the
number of calls are the total number of spans, which is `R * S * N` for `R`
resources of `S` scopes of `N` spans each. -/
theorem fan_out {β ρ : Type} (dec : Decoders β ρ) (r : Request β) (reader : ρ)
    (raw : List UInt8) (req : ExportTraceServiceRequest)
    (h1 : (r.contentEncoding = "gzip" ∧ dec.gzipNewReader r.body = Except.ok reader) ∨
      (r.contentEncoding ≠ "gzip" ∧ dec.bodyReader r.body = reader))
    (h2 : dec.readAll reader = Except.ok raw)
    (h3 : dec.unmarshal raw = Except.ok req) :
    (ingestHandler dec r).saved = recordsInOrder req ∧
    (ingestHandler dec r).log = [LogLine.financialTxns (totalSpans req)] ∧
    (ingestHandler dec r).saved.length = totalSpans req ∧
    (∀ R S N, req.ResourceSpans.length = R →
      (∀ rs ∈ req.ResourceSpans, rs.ScopeSpans.length = S ∧
        ∀ ss ∈ rs.ScopeSpans, ss.Spans.length = N) →
      (ingestHandler dec r).saved.length = R * S * N ∧
      (ingestHandler dec r).log = [LogLine.financialTxns (R * S * N)]) := by
  have hrun : ingestHandler dec r
      = ⟨[LogLine.financialTxns (totalSpans req)], recordsInOrder req⟩ := by
    unfold ingestHandler
    rcases h1 with ⟨hg, hz⟩ | ⟨hg, hb⟩
    · rw [if_pos hg, hz]
      exact ingestFrom_ok dec reader raw req h2 h3
    · rw [if_neg hg, hb]
      exact ingestFrom_ok dec reader raw req h2 h3
  rw [hrun]
  refine ⟨rfl, rfl, recordsInOrder_length req, ?_⟩
  intro R S N hR hS
  have ht := totalSpans_uniform req R S N hR hS
  exact ⟨by rw [← ht]; exact recordsInOrder_length req, by rw [ht]⟩

/-- Witness of C3: a request of one resource group with two scopes of one
span each, sent uncompressed, gives `1 * 2 * 1` calls in document order. -/
theorem fan_out_witness :
    (ingestHandler (fixedDecoders ⟨[bareGroup]⟩) ⟨"", [1, 2, 3]⟩).saved
      = recordsInOrder ⟨[bareGroup]⟩ ∧
    (ingestHandler (fixedDecoders ⟨[bareGroup]⟩) ⟨"", [1, 2, 3]⟩).saved.length = 1 * 2 * 1 :=
  ⟨(fan_out (fixedDecoders ⟨[bareGroup]⟩) ⟨"", [1, 2, 3]⟩ [1, 2, 3] [1, 2, 3] ⟨[bareGroup]⟩
      (Or.inr ⟨by decide, rfl⟩) rfl rfl).1,
   ((fan_out (fixedDecoders ⟨[bareGroup]⟩) ⟨"", [1, 2, 3]⟩ [1, 2, 3] [1, 2, 3] ⟨[bareGroup]⟩
      (Or.inr ⟨by decide, rfl⟩) rfl rfl).2.2.2 1 2 1 rfl (by decide)).1⟩

/-- C4: when the gzip reader cannot be opened (`Content-Encoding: gzip`),
when reading the body fails, or when unmarshalling fails, `ingestHandler`
returns having logged the error and made no `saveTxn` call; conversely a run
with a `saveTxn` call has passed all three steps. -/
theorem decode_failure {β ρ : Type} (dec : Decoders β ρ) (r : Request β) :
    (∀ e, r.contentEncoding = "gzip" → dec.gzipNewReader r.body = Except.error e →
      (ingestHandler dec r).saved = [] ∧ (ingestHandler dec r).log = [LogLine.gzip e]) ∧
    (∀ reader e,
      ((r.contentEncoding = "gzip" ∧ dec.gzipNewReader r.body = Except.ok reader) ∨
        (r.contentEncoding ≠ "gzip" ∧ dec.bodyReader r.body = reader)) →
      dec.readAll reader = Except.error e →
      (ingestHandler dec r).saved = [] ∧ (ingestHandler dec r).log = [LogLine.readBody e]) ∧
    (∀ reader raw e,
      ((r.contentEncoding = "gzip" ∧ dec.gzipNewReader r.body = Except.ok reader) ∨
        (r.contentEncoding ≠ "gzip" ∧ dec.bodyReader r.body = reader)) →
      dec.readAll reader = Except.ok raw → dec.unmarshal raw = Except.error e →
      (ingestHandler dec r).saved = [] ∧
      (ingestHandler dec r).log = [LogLine.invalidProtobuf e]) ∧
    ((ingestHandler dec r).saved ≠ [] →
      ∃ reader raw req,
        ((r.contentEncoding = "gzip" ∧ dec.gzipNewReader r.body = Except.ok reader) ∨
          (r.contentEncoding ≠ "gzip" ∧ dec.bodyReader r.body = reader)) ∧
        dec.readAll reader = Except.ok raw ∧ dec.unmarshal raw = Except.ok req) := by
  have hfrom : ∀ reader,
      ((r.contentEncoding = "gzip" ∧ dec.gzipNewReader r.body = Except.ok reader) ∨
        (r.contentEncoding ≠ "gzip" ∧ dec.bodyReader r.body = reader)) →
      ingestHandler dec r = ingestFrom dec reader := by
    intro reader h
    unfold ingestHandler
    rcases h with ⟨hg, hz⟩ | ⟨hg, hb⟩
    · rw [if_pos hg, hz]
    · rw [if_neg hg, hb]
  refine ⟨?_, ?_, ?_, ?_⟩
  · intro e hg hz
    unfold ingestHandler
    rw [if_pos hg, hz]
    exact ⟨rfl, rfl⟩
  · intro reader e h1 h2
    rw [hfrom reader h1]
    unfold ingestFrom
    rw [h2]
    exact ⟨rfl, rfl⟩
  · intro reader raw e h1 h2 h3
    rw [hfrom reader h1]
    simp [ingestFrom, h2, h3]
  · intro hne
    by_cases hg : r.contentEncoding = "gzip"
    · cases hz : dec.gzipNewReader r.body with
      | error e =>
        exfalso
        apply hne
        unfold ingestHandler
        rw [if_pos hg, hz]
      | ok gz =>
        rw [hfrom gz (Or.inl ⟨hg, hz⟩)] at hne
        obtain ⟨raw, req, h2, h3⟩ := ingestFrom_saved dec gz hne
        exact ⟨gz, raw, req, Or.inl ⟨hg, rfl⟩, h2, h3⟩
    · rw [hfrom (dec.bodyReader r.body) (Or.inr ⟨hg, rfl⟩)] at hne
      obtain ⟨raw, req, h2, h3⟩ := ingestFrom_saved dec _ hne
      exact ⟨_, raw, req, Or.inr ⟨hg, rfl⟩, h2, h3⟩

/-- Witness of C4: a body that `proto.Unmarshal` rejects gives no `saveTxn`
call and the log line of the decode error. -/
theorem decode_failure_witness :
    (ingestHandler rejectingDecoders ⟨"gzip", [0xff]⟩).saved = [] ∧
    (ingestHandler rejectingDecoders ⟨"gzip", [0xff]⟩).log
      = [LogLine.invalidProtobuf "proto: cannot parse invalid wire-format data"] :=
  (decode_failure rejectingDecoders ⟨"gzip", [0xff]⟩).2.2.1 [0xff] [0xff]
    "proto: cannot parse invalid wire-format data" (Or.inl ⟨rfl, rfl⟩) rfl rfl

/-- C2 (code defect, evaluated at the failing input): the `txn.amount`
string `1e400` of `hugeAmountSpan` fails to parse (`ParseFloat` returns a
non-nil error, cause `ErrRange`), and `spanToTxn`, which drops the error and
keeps the returned value, gives the record `amount = +Inf` where a parse
failure is to give `0`. -/
theorem amount_range_error_not_zero :
    attr hugeAmountSpan "txn.amount" = "1e400" ∧
    (ParseFloat "1e400").2 = some NumError.ErrRange ∧
    (spanToTxn hugeAmountSpan "svc").properties.amount = Float64.inf 1 ∧
    (spanToTxn hugeAmountSpan "svc").properties.amount ≠ Float64.zero := by
  decide

end Bridge
